import Mathlib

/-!
Shallow embedding of the sonata VITS voice-model inference pipeline
(src/piper/models/vits/src/lib.rs) together with a verification of its
specification.

Modelling conventions:
* f32 samples are modelled as exact rationals; NaN is modelled explicitly
  (constructor F32.nan) because the min/max reduction of the source fails
  exactly when an undefined comparison (a NaN) occurs.  Rounding and
  infinities are outside the model.
* A Rust Ok/Err value is RResult.ok / RResult.err; a Rust panic
  (unwrap on a missing entry, index out of bounds) is RResult.panicked.
* The inference backend (an onnxruntime session) is an abstract external collaborator;
  it is modelled as a function from the built named inputs to either a run
  failure message or the list of output values, each of which either
  extracts to a float tensor or fails with a message.
* Wall-clock timing (the inference_ms measurement) is not modelled.
-/

set_option maxRecDepth 2000

/-- Error kinds of piper_core::PiperError used by this crate. -/
inductive PiperError where
  | FailedToLoadResource : String → PiperError
  | PhonemizationError : String → PiperError
  | OperationError : String → PiperError
deriving DecidableEq, Repr

/-- Outcome of a Rust computation: a returned Ok value, a returned Err value,
or a panic (unwrap on None, out-of-bounds index). -/
inductive RResult (α : Type) where
  | ok : α → RResult α
  | err : PiperError → RResult α
  | panicked : RResult α
deriving DecidableEq, Repr

def RResult.bind {α β : Type} : RResult α → (α → RResult β) → RResult β
  | .ok a, f => f a
  | .err e, _ => .err e
  | .panicked, _ => .panicked

@[simp] theorem RResult.bind_ok {α β : Type} (a : α) (f : α → RResult β) :
    (RResult.ok a).bind f = f a := rfl

@[simp] theorem RResult.bind_err {α β : Type} (e : PiperError) (f : α → RResult β) :
    (RResult.err e).bind f = .err e := rfl

@[simp] theorem RResult.bind_panicked {α β : Type} (f : α → RResult β) :
    (RResult.panicked : RResult α).bind f = .panicked := rfl

/-- An f32 value: either NaN or a finite value modelled as a rational. -/
inductive F32 where
  | nan : F32
  | val : ℚ → F32
deriving DecidableEq, Repr

/-- The finite value of an f32 (unreachable default 0 on NaN). -/
def f32toQ : F32 → ℚ
  | F32.nan => 0
  | F32.val q => q

/-- Computable maximum on ℚ (f32::max for NaN-free arguments). -/
def qmax (a b : ℚ) : ℚ := if a ≤ b then b else a

/-- Computable minimum on ℚ (f32::min for NaN-free arguments). -/
def qmin (a b : ℚ) : ℚ := if a ≤ b then a else b

/-- Computable absolute value on ℚ (f32::abs). -/
def qabs (q : ℚ) : ℚ := if q < 0 then -q else q

@[simp] theorem qmax_eq_max (a b : ℚ) : qmax a b = max a b := by
  simp [qmax, max_def]

@[simp] theorem qmin_eq_min (a b : ℚ) : qmin a b = min a b := by
  simp [qmin, min_def]

@[simp] theorem qabs_eq_abs (q : ℚ) : qabs q = |q| := by
  rcases lt_or_le q 0 with h | h
  · simp [qabs, h, abs_of_neg h]
  · simp [qabs, not_lt.mpr h, abs_of_nonneg h]

/-- Accumulating phase of the ndarray-stats min reduction: folds the
remaining elements into the accumulator; an undefined comparison (NaN)
makes the whole reduction fail. -/
def f32MinGo : ℚ → List F32 → Option ℚ
  | acc, [] => some acc
  | _, F32.nan :: _ => none
  | acc, F32.val q :: rest => f32MinGo (qmin acc q) rest

/-- ndarray-stats QuantileExt::min on an f32 array: fails on an empty array
and on any undefined (NaN) comparison. -/
def f32Min : List F32 → Option ℚ
  | [] => none
  | F32.nan :: _ => none
  | F32.val q :: rest => f32MinGo q rest

/-- Accumulating phase of the max reduction, dual to f32MinGo. -/
def f32MaxGo : ℚ → List F32 → Option ℚ
  | acc, [] => some acc
  | _, F32.nan :: _ => none
  | acc, F32.val q :: rest => f32MaxGo (qmax acc q) rest

/-- ndarray-stats QuantileExt::max on an f32 array, dual to f32Min. -/
def f32Max : List F32 → Option ℚ
  | [] => none
  | F32.nan :: _ => none
  | F32.val q :: rest => f32MaxGo q rest

/-- Rust float-to-integer cast: truncation toward zero. -/
def ratTrunc (q : ℚ) : Int := if q < 0 then -⌊-q⌋ else ⌊q⌋

/-- Rust f32::clamp for NaN-free arguments. -/
def rustClamp (x lo hi : ℚ) : ℚ := qmax lo (qmin x hi)

/-- const MAX_WAV_VALUE: f32 = 32767.0. -/
def MAX_WAV_VALUE : ℚ := 32767

/-- fn audio_float_to_i16 (src/piper/models/vits/src/lib.rs lines 36-58):
empty input returns an empty Ok; a failed min (resp. max) reduction returns
OperationError; otherwise every sample is scaled by
MAX_WAV_VALUE / max (max maxv the-abs-of-minv) (1/100), clamped to the i16
range and truncated. -/
def audio_float_to_i16 (audio_f32 : List F32) : RResult (List Int) :=
  if audio_f32.isEmpty then .ok []
  else
    match f32Min audio_f32 with
    | none => .err (.OperationError "Invalid output from model inference.")
    | some min_audio_value =>
      match f32Max audio_f32 with
      | none => .err (.OperationError "Invalid output from model inference. ")
      | some max_audio_value =>
        let abs_max := qmax max_audio_value (qabs min_audio_value)
        let audio_scale := MAX_WAV_VALUE / qmax abs_max (1/100)
        .ok (audio_f32.map (fun i => ratTrunc (rustClamp (f32toQ i * audio_scale) (-32768) 32767)))

/-- Evaluation helper: once the min and max reductions are known, the
renderer is the per-sample scale-clamp-truncate map. -/
theorem audio_float_to_i16_eq_map (xs : List F32) (mn mx : ℚ)
    (hmn : f32Min xs = some mn) (hmx : f32Max xs = some mx) :
    audio_float_to_i16 xs =
      .ok (xs.map (fun i =>
        ratTrunc (rustClamp (f32toQ i * (MAX_WAV_VALUE / qmax (qmax mx (qabs mn)) (1/100)))
          (-32768) 32767))) := by
  cases xs with
  | nil => simp [f32Min] at hmn
  | cons a l => simp only [audio_float_to_i16, List.isEmpty_cons, Bool.false_eq_true,
      if_false, hmn, hmx]

/-- Evaluation helper: same as audio_float_to_i16_eq_map with the scale factor
computed separately (keeps concrete kernel evaluations shallow). -/
theorem audio_float_to_i16_eq_map_scaled (xs : List F32) (mn mx s : ℚ)
    (hmn : f32Min xs = some mn) (hmx : f32Max xs = some mx)
    (hs : MAX_WAV_VALUE / qmax (qmax mx (qabs mn)) (1/100) = s) :
    audio_float_to_i16 xs =
      .ok (xs.map (fun i => ratTrunc (rustClamp (f32toQ i * s) (-32768) 32767))) := by
  rw [audio_float_to_i16_eq_map xs mn mx hmn hmx, hs]

theorem f32MinGo_le_acc : ∀ (l : List F32) (a m : ℚ), f32MinGo a l = some m → m ≤ a := by
  intro l
  induction l with
  | nil => intro a m h; simp [f32MinGo] at h; simp [h]
  | cons x rest ih =>
    intro a m h
    cases x with
    | nan => simp [f32MinGo] at h
    | val q =>
      have : m ≤ qmin a q := ih (qmin a q) m h
      calc m ≤ qmin a q := this
        _ ≤ a := by rw [qmin_eq_min]; exact min_le_left a q

theorem f32MinGo_le_mem : ∀ (l : List F32) (a m q : ℚ),
    f32MinGo a l = some m → F32.val q ∈ l → m ≤ q := by
  intro l
  induction l with
  | nil => intro a m q _ hq; simp at hq
  | cons x rest ih =>
    intro a m q h hq
    cases x with
    | nan => simp [f32MinGo] at h
    | val q0 =>
      rcases List.mem_cons.mp hq with heq | hmem
      · have hq0 : q = q0 := by injection heq
        subst hq0
        calc m ≤ qmin a q := f32MinGo_le_acc rest (qmin a q) m h
          _ ≤ q := by rw [qmin_eq_min]; exact min_le_right a q
      · exact ih (qmin a q0) m q h hmem

theorem f32Min_le_mem (xs : List F32) (m q : ℚ)
    (h : f32Min xs = some m) (hq : F32.val q ∈ xs) : m ≤ q := by
  cases xs with
  | nil => simp [f32Min] at h
  | cons x rest =>
    cases x with
    | nan => simp [f32Min] at h
    | val q0 =>
      rcases List.mem_cons.mp hq with heq | hmem
      · have hq0 : q = q0 := by injection heq
        subst hq0
        exact f32MinGo_le_acc rest q m h
      · exact f32MinGo_le_mem rest q0 m q h hmem

theorem f32MaxGo_acc_le : ∀ (l : List F32) (a m : ℚ), f32MaxGo a l = some m → a ≤ m := by
  intro l
  induction l with
  | nil => intro a m h; simp [f32MaxGo] at h; simp [h]
  | cons x rest ih =>
    intro a m h
    cases x with
    | nan => simp [f32MaxGo] at h
    | val q =>
      calc a ≤ qmax a q := by rw [qmax_eq_max]; exact le_max_left a q
        _ ≤ m := ih (qmax a q) m h

theorem f32MaxGo_mem_le : ∀ (l : List F32) (a m q : ℚ),
    f32MaxGo a l = some m → F32.val q ∈ l → q ≤ m := by
  intro l
  induction l with
  | nil => intro a m q _ hq; simp at hq
  | cons x rest ih =>
    intro a m q h hq
    cases x with
    | nan => simp [f32MaxGo] at h
    | val q0 =>
      rcases List.mem_cons.mp hq with heq | hmem
      · have hq0 : q = q0 := by injection heq
        subst hq0
        calc q ≤ qmax a q := by rw [qmax_eq_max]; exact le_max_right a q
          _ ≤ m := f32MaxGo_acc_le rest (qmax a q) m h
      · exact ih (qmax a q0) m q h hmem

theorem f32Max_mem_le (xs : List F32) (m q : ℚ)
    (h : f32Max xs = some m) (hq : F32.val q ∈ xs) : q ≤ m := by
  cases xs with
  | nil => simp [f32Max] at h
  | cons x rest =>
    cases x with
    | nan => simp [f32Max] at h
    | val q0 =>
      rcases List.mem_cons.mp hq with heq | hmem
      · have hq0 : q = q0 := by injection heq
        subst hq0
        exact f32MaxGo_acc_le rest q m h
      · exact f32MaxGo_mem_le rest q0 m q h hmem

theorem f32Min_le_f32Max (xs : List F32) (m M : ℚ)
    (h1 : f32Min xs = some m) (h2 : f32Max xs = some M) : m ≤ M := by
  cases xs with
  | nil => simp [f32Min] at h1
  | cons x rest =>
    cases x with
    | nan => simp [f32Min] at h1
    | val q0 =>
      have hm : m ≤ q0 := f32MinGo_le_acc rest q0 m h1
      have hM : q0 ≤ M := f32MaxGo_acc_le rest q0 M h2
      linarith

theorem f32MinGo_eq_none_iff : ∀ (l : List F32) (a : ℚ), f32MinGo a l = none ↔ F32.nan ∈ l := by
  intro l
  induction l with
  | nil => intro a; simp [f32MinGo]
  | cons x rest ih =>
    intro a
    cases x with
    | nan => simp [f32MinGo]
    | val q => simp only [f32MinGo, List.mem_cons, ih]; simp

theorem f32MaxGo_eq_none_iff : ∀ (l : List F32) (a : ℚ), f32MaxGo a l = none ↔ F32.nan ∈ l := by
  intro l
  induction l with
  | nil => intro a; simp [f32MaxGo]
  | cons x rest ih =>
    intro a
    cases x with
    | nan => simp [f32MaxGo]
    | val q => simp only [f32MaxGo, List.mem_cons, ih]; simp

theorem f32Min_eq_none_iff (xs : List F32) :
    f32Min xs = none ↔ xs = [] ∨ F32.nan ∈ xs := by
  cases xs with
  | nil => simp [f32Min]
  | cons x rest =>
    cases x with
    | nan => simp [f32Min]
    | val q => simp [f32Min, f32MinGo_eq_none_iff]

theorem f32Max_eq_none_iff (xs : List F32) :
    f32Max xs = none ↔ xs = [] ∨ F32.nan ∈ xs := by
  cases xs with
  | nil => simp [f32Max]
  | cons x rest =>
    cases x with
    | nan => simp [f32Max]
    | val q => simp [f32Max, f32MaxGo_eq_none_iff]

theorem f32Min_some_no_nan (xs : List F32) (m : ℚ) (h : f32Min xs = some m) :
    F32.nan ∉ xs := by
  intro hnan
  have : f32Min xs = none := (f32Min_eq_none_iff xs).mpr (Or.inr hnan)
  rw [this] at h
  cases h

theorem abs_le_code_absmax (q mn mx : ℚ) (h1 : mn ≤ q) (h2 : q ≤ mx) :
    |q| ≤ qmax mx (qabs mn) := by
  rw [qmax_eq_max, qabs_eq_abs]
  rcases le_or_lt 0 q with hq | hq
  · rw [abs_of_nonneg hq]
    exact le_max_of_le_left h2
  · rw [abs_of_neg hq]
    refine le_max_of_le_right ?_
    rw [abs_of_neg (lt_of_le_of_lt h1 hq)]
    linarith

/-- The scaled sample is bounded by MAX_WAV_VALUE in absolute value. -/
theorem scaled_sample_abs_le (q A : ℚ) (hq : |q| ≤ A) :
    |q * (MAX_WAV_VALUE / qmax A (1/100))| ≤ MAX_WAV_VALUE := by
  rw [qmax_eq_max]
  set D := max A (1/100) with hD
  have hDpos : 0 < D := lt_of_lt_of_le (by norm_num) (le_max_right A (1/100))
  have hAD : A ≤ D := le_max_left A (1/100)
  have hscale : 0 ≤ MAX_WAV_VALUE / D := by
    apply div_nonneg
    · norm_num [MAX_WAV_VALUE]
    · exact le_of_lt hDpos
  rw [abs_mul, abs_of_nonneg hscale]
  calc |q| * (MAX_WAV_VALUE / D) ≤ D * (MAX_WAV_VALUE / D) := by
        apply mul_le_mul_of_nonneg_right (le_trans hq hAD) hscale
    _ = MAX_WAV_VALUE := by
        rw [mul_comm, div_mul_cancel₀]
        exact ne_of_gt hDpos

theorem ratTrunc_abs_bound (q : ℚ) (B : ℕ) (h : |q| ≤ (B : ℚ)) :
    -(B : Int) ≤ ratTrunc q ∧ ratTrunc q ≤ (B : Int) := by
  rw [ratTrunc]
  rcases lt_or_le q 0 with hq | hq
  · rw [if_pos hq]
    have h1 : -q ≤ (B : ℚ) := by
      have := abs_le.mp h
      linarith
    have h2 : (0:ℚ) ≤ -q := by linarith
    constructor
    · have : ⌊-q⌋ ≤ ⌊((B : Int) : ℚ)⌋ := Int.floor_le_floor (by push_cast; exact h1)
      rw [Int.floor_intCast] at this
      omega
    · have : (0:Int) ≤ ⌊-q⌋ := Int.floor_nonneg.mpr h2
      omega
  · rw [if_neg (not_lt.mpr hq)]
    have h1 : q ≤ (B : ℚ) := by
      have := abs_le.mp h
      linarith
    constructor
    · have : (0:Int) ≤ ⌊q⌋ := Int.floor_nonneg.mpr hq
      omega
    · have : ⌊q⌋ ≤ ⌊((B : Int) : ℚ)⌋ := Int.floor_le_floor (by push_cast; exact h1)
      rw [Int.floor_intCast] at this
      omega

theorem ratTrunc_intCast (n : Int) : ratTrunc (n : ℚ) = n := by
  rw [ratTrunc]
  rcases lt_or_le (n : ℚ) 0 with hq | hq
  · rw [if_pos hq]
    rw [show (-(n:ℚ)) = ((-n : Int) : ℚ) by push_cast; ring, Int.floor_intCast]
    omega
  · rw [if_neg (not_lt.mpr hq), Int.floor_intCast]

theorem rustClamp_of_bounds (x lo hi : ℚ) (h1 : lo ≤ x) (h2 : x ≤ hi) :
    rustClamp x lo hi = x := by
  rw [rustClamp, qmax_eq_max, qmin_eq_min, min_eq_left h2, max_eq_right h1]

theorem audio_float_to_i16_err_of_min_none (xs : List F32) (hne : xs ≠ [])
    (hmin : f32Min xs = none) :
    audio_float_to_i16 xs = .err (.OperationError "Invalid output from model inference.") := by
  cases xs with
  | nil => exact absurd rfl hne
  | cons a l =>
    simp only [audio_float_to_i16, List.isEmpty_cons, Bool.false_eq_true, if_false, hmin]

/-- The code computes qmax mx (qabs mn); the spec writes max of the two
absolute values.  They agree whenever mn is at most mx. -/
theorem code_absmax_eq_spec_absmax (mn mx : ℚ) (h : mn ≤ mx) :
    qmax mx (qabs mn) = qmax (qabs mn) (qabs mx) := by
  rw [qmax_eq_max, qmax_eq_max, qabs_eq_abs, qabs_eq_abs]
  rcases le_or_lt 0 mx with hmx | hmx
  · rw [abs_of_nonneg hmx, max_comm]
  · have hmn : mn < 0 := lt_of_le_of_lt h hmx
    rw [abs_of_neg hmx, abs_of_neg hmn]
    rw [max_eq_right (by linarith), max_eq_left (by linarith)]

/-- C4: audio_float_to_i16 (renderToPcm16) on empty input returns an empty Ok
with no error; on input whose min/max reduction succeeds it scales every sample
by MAX_WAV_VALUE divided by the larger of abs-max and the 1/100 floor, where
abs-max is the maximum of the absolute values of the minimum and the maximum,
clamps to the i16 range and truncates toward zero; and for non-empty input it
reports an OperationError exactly when the min/max reduction fails. -/
theorem C4_audio_float_to_i16_spec :
    (audio_float_to_i16 [] = .ok []) ∧
    (∀ (xs : List F32) (mn mx : ℚ), f32Min xs = some mn → f32Max xs = some mx →
      audio_float_to_i16 xs =
        .ok (xs.map (fun i =>
          ratTrunc (rustClamp
            (f32toQ i * (MAX_WAV_VALUE / qmax (qmax (qabs mn) (qabs mx)) (1/100)))
            (-32768) 32767)))) ∧
    (∀ xs : List F32, xs ≠ [] →
      ((∃ msg, audio_float_to_i16 xs = .err (.OperationError msg)) ↔
        (f32Min xs = none ∨ f32Max xs = none))) := by
  refine ⟨by decide, ?_, ?_⟩
  · intro xs mn mx hmn hmx
    rw [audio_float_to_i16_eq_map xs mn mx hmn hmx,
      code_absmax_eq_spec_absmax mn mx (f32Min_le_f32Max xs mn mx hmn hmx)]
  · intro xs hne
    rcases hmin : f32Min xs with _ | mn
    · constructor
      · intro _
        exact Or.inl rfl
      · intro _
        exact ⟨"Invalid output from model inference.",
          audio_float_to_i16_err_of_min_none xs hne hmin⟩
    · rcases hmax : f32Max xs with _ | mx
      · exfalso
        have h1 : xs = [] ∨ F32.nan ∈ xs := (f32Max_eq_none_iff xs).mp hmax
        have h2 : f32Min xs = none := (f32Min_eq_none_iff xs).mpr h1
        rw [h2] at hmin
        cases hmin
      · rw [audio_float_to_i16_eq_map xs mn mx hmin hmax]
        constructor
        · rintro ⟨msg, h⟩
          cases h
        · rintro (h | h) <;> simp at h

/-- C4 witness: the theorem applied to the concrete input with samples one half
and minus one quarter. -/
theorem C4_witness :
    f32Min [F32.val (1/2), F32.val (-1/4)] = some (-1/4) ∧
    f32Max [F32.val (1/2), F32.val (-1/4)] = some (1/2) ∧
    audio_float_to_i16 [F32.val (1/2), F32.val (-1/4)] =
      .ok ([F32.val (1/2), F32.val (-1/4)].map (fun i =>
        ratTrunc (rustClamp
          (f32toQ i * (MAX_WAV_VALUE / qmax (qmax (qabs (-1/4)) (qabs (1/2))) (1/100)))
          (-32768) 32767))) :=
  ⟨by norm_num [f32Min, f32MinGo, qmin],
   by norm_num [f32Max, f32MaxGo, qmax],
   C4_audio_float_to_i16_spec.2.1 [F32.val (1/2), F32.val (-1/4)] (-1/4) (1/2)
     (by norm_num [f32Min, f32MinGo, qmin]) (by norm_num [f32Max, f32MaxGo, qmax])⟩

/-- C5 (amended): whenever audio_float_to_i16 returns samples, every returned
sample lies between -32767 and 32767; and when the input has a negative
minimum and a positive maximum and the louder of the two extrema has absolute
value at least the 1/100 floor, the sample equal to the louder extremum maps
exactly to 32767 or -32767 (hence within 1 unit of the peak). -/
theorem C5_output_range_and_peak (xs : List F32) (out : List Int) (mn mx : ℚ)
    (hok : audio_float_to_i16 xs = .ok out) :
    (∀ r ∈ out, -32767 ≤ r ∧ r ≤ 32767) ∧
    (f32Min xs = some mn → f32Max xs = some mx → mn < 0 → 0 < mx →
      1/100 ≤ qmax mx (qabs mn) →
      ∀ (i : ℕ) (q : ℚ), xs[i]? = some (F32.val q) →
        ((qabs mn ≤ mx ∧ q = mx) → out[i]? = some 32767) ∧
        ((mx ≤ qabs mn ∧ q = mn) → out[i]? = some (-32767))) := by
  constructor
  · rcases hmn2 : f32Min xs with _ | mn2
    · cases xs with
      | nil =>
        have h0 : audio_float_to_i16 [] = RResult.ok ([] : List Int) := by decide
        rw [h0] at hok
        injection hok with h1
        rw [← h1]
        intro r hr
        simp at hr
      | cons a l =>
        rw [audio_float_to_i16_err_of_min_none (a :: l) (by simp) hmn2] at hok
        cases hok
    · rcases hmx2 : f32Max xs with _ | mx2
      · exfalso
        have h1 := (f32Max_eq_none_iff xs).mp hmx2
        have h2 := (f32Min_eq_none_iff xs).mpr h1
        rw [h2] at hmn2
        cases hmn2
      · rw [audio_float_to_i16_eq_map xs mn2 mx2 hmn2 hmx2] at hok
        injection hok with hout
        rw [← hout]
        intro r hr
        rcases List.mem_map.mp hr with ⟨s, hs, hfs⟩
        cases s with
        | nan => exact absurd hs (f32Min_some_no_nan xs mn2 hmn2)
        | val q =>
          have hq1 : mn2 ≤ q := f32Min_le_mem xs mn2 q hmn2 hs
          have hq2 : q ≤ mx2 := f32Max_mem_le xs mx2 q hmx2 hs
          have habs : |q| ≤ qmax mx2 (qabs mn2) := abs_le_code_absmax q mn2 mx2 hq1 hq2
          have hscaled := scaled_sample_abs_le q (qmax mx2 (qabs mn2)) habs
          have hb := abs_le.mp hscaled
          have hbound : |q * (MAX_WAV_VALUE / qmax (qmax mx2 (qabs mn2)) (1/100))| ≤
              ((32767 : ℕ) : ℚ) := by
            rw [show ((32767 : ℕ) : ℚ) = MAX_WAV_VALUE by norm_num [MAX_WAV_VALUE]]
            exact hscaled
          have hcl : rustClamp (q * (MAX_WAV_VALUE / qmax (qmax mx2 (qabs mn2)) (1/100)))
              (-32768) 32767 = q * (MAX_WAV_VALUE / qmax (qmax mx2 (qabs mn2)) (1/100)) := by
            apply rustClamp_of_bounds
            · have := hb.1
              norm_num [MAX_WAV_VALUE] at this ⊢
              linarith
            · have := hb.2
              norm_num [MAX_WAV_VALUE] at this ⊢
              linarith
          have htr := ratTrunc_abs_bound
            (q * (MAX_WAV_VALUE / qmax (qmax mx2 (qabs mn2)) (1/100))) 32767 hbound
          rw [← hfs]
          simp only [f32toQ, hcl]
          constructor
          · have := htr.1
            omega
          · have := htr.2
            omega
  · intro hmn hmx hmnneg hmxpos hfloor i q hget
    rw [audio_float_to_i16_eq_map xs mn mx hmn hmx] at hok
    injection hok with hout
    have hfl : qmax (qmax mx (qabs mn)) (1/100) = qmax mx (qabs mn) := by
      rw [qmax_eq_max (qmax mx (qabs mn)) (1/100)]
      exact max_eq_left hfloor
    constructor
    · rintro ⟨hlo, hq⟩
      have h1 : qmax mx (qabs mn) = mx := by
        rw [qmax_eq_max]
        exact max_eq_left hlo
      rw [← hout, List.getElem?_map, hget]
      have hval : q * (MAX_WAV_VALUE / qmax (qmax mx (qabs mn)) (1/100)) = MAX_WAV_VALUE := by
        rw [hfl, h1, hq, mul_comm, div_mul_cancel₀]
        exact ne_of_gt hmxpos
      simp only [Option.map_some', f32toQ, hval]
      have hclamp : rustClamp MAX_WAV_VALUE (-32768) 32767 = MAX_WAV_VALUE := by
        apply rustClamp_of_bounds <;> norm_num [MAX_WAV_VALUE]
      rw [hclamp, show MAX_WAV_VALUE = ((32767 : Int) : ℚ) by norm_num [MAX_WAV_VALUE],
        ratTrunc_intCast]
    · rintro ⟨hlo, hq⟩
      have hlo2 : mx ≤ |mn| := by
        rw [qabs_eq_abs] at hlo
        exact hlo
      have h1 : qmax mx (qabs mn) = -mn := by
        rw [qmax_eq_max, qabs_eq_abs, max_eq_right hlo2, abs_of_neg hmnneg]
      rw [← hout, List.getElem?_map, hget]
      have hmnne : mn ≠ 0 := ne_of_lt hmnneg
      have hval : q * (MAX_WAV_VALUE / qmax (qmax mx (qabs mn)) (1/100)) = -MAX_WAV_VALUE := by
        rw [hfl, h1, hq, div_neg, mul_neg, ← mul_div_assoc, mul_comm, mul_div_assoc,
          div_self hmnne, mul_one]
      simp only [Option.map_some', f32toQ, hval]
      have hclamp : rustClamp (-MAX_WAV_VALUE) (-32768) 32767 = -MAX_WAV_VALUE := by
        apply rustClamp_of_bounds <;> norm_num [MAX_WAV_VALUE]
      rw [hclamp, show -MAX_WAV_VALUE = ((-32767 : Int) : ℚ) by norm_num [MAX_WAV_VALUE],
        ratTrunc_intCast]

/-- C5 witness: the theorem applied at the concrete input with samples one and
minus one half, whose rendered output is 32767 and -16383. -/
theorem C5_witness :
    audio_float_to_i16 [F32.val 1, F32.val (-1/2)] = .ok [32767, -16383] ∧
    (∀ r ∈ ([32767, -16383] : List Int), -32767 ≤ r ∧ r ≤ 32767) := by
  have hok : audio_float_to_i16 [F32.val 1, F32.val (-1/2)] = .ok [32767, -16383] := by
    rw [audio_float_to_i16_eq_map_scaled [F32.val 1, F32.val (-1/2)] (-1/2) 1 32767
      (by norm_num [f32Min, f32MinGo, qmin]) (by norm_num [f32Max, f32MaxGo, qmax])
      (by norm_num [MAX_WAV_VALUE, qmax, qabs])]
    norm_num [f32toQ, rustClamp, qmax, qmin, ratTrunc]
  exact ⟨hok,
    (C5_output_range_and_peak [F32.val 1, F32.val (-1/2)] [32767, -16383] (-1/2) 1 hok).1⟩

/-- C5 counterexample: on the input with samples 1/1000 and -1/2000 both a
positive and a negative extremum are present, yet the louder extremum (1/1000,
at index 0) renders to 3276, which is not within 1 unit of 32767: the 1/100
floor in the scale denominator defeats peak normalization on near-silent
input, refuting the claim as stated. -/
theorem C5_counterexample :
    audio_float_to_i16 [F32.val (1/1000), F32.val (-1/2000)] = .ok [3276, -1638] ∧
    f32Min [F32.val (1/1000), F32.val (-1/2000)] = some (-1/2000) ∧
    f32Max [F32.val (1/1000), F32.val (-1/2000)] = some (1/1000) ∧
    ((-1/2000 : ℚ) < 0) ∧ ((0 : ℚ) < 1/1000) ∧
    qabs (-1/2000) ≤ (1/1000 : ℚ) ∧
    ([F32.val (1/1000), F32.val (-1/2000)] : List F32)[0]? = some (F32.val (1/1000)) ∧
    (([3276, -1638] : List Int))[0]? = some 3276 ∧
    ¬ ((32767 : Int) - 3276 ≤ 1) := by
  refine ⟨?_, by norm_num [f32Min, f32MinGo, qmin], by norm_num [f32Max, f32MaxGo, qmax],
    by norm_num, by norm_num, by norm_num [qabs], rfl, rfl, by decide⟩
  rw [audio_float_to_i16_eq_map_scaled [F32.val (1/1000), F32.val (-1/2000)] (-1/2000) (1/1000)
    3276700
    (by norm_num [f32Min, f32MinGo, qmin]) (by norm_num [f32Max, f32MaxGo, qmax])
    (by norm_num [MAX_WAV_VALUE, qmax, qabs])]
  norm_num [f32toQ, rustClamp, qmax, qmin, ratTrunc]

/-- const BOS: char (the caret character). -/
def BOS : Char := '^'

/-- const EOS: char (the dollar character). -/
def EOS : Char := '$'

/-- const PAD: char (the underscore character). -/
def PAD : Char := '_'

/-- ModelConfig (the parsed voice descriptor): the fields this verification
needs, with HashMap fields modelled as association lists or lookup functions. -/
structure ModelConfig where
  num_speakers : Nat
  speaker_id_map : List (String × Int)
  phoneme_id_map : Char → Option (List Int)
  espeak_voice : String
  sample_rate : Nat
  streaming : Option Bool
  noise_scale : ℚ
  length_scale : ℚ
  noise_w : ℚ

/-- SynthesisConfig: the lock-guarded mutable synthesis tunables. -/
structure SynthesisConfig where
  speaker : Option (String × Int)
  noise_scale : ℚ
  length_scale : ℚ
  noise_w : ℚ
deriving DecidableEq, Repr

/-- HashMap::get on an association list whose keys are unique. -/
def hmGet {K V : Type} [DecidableEq K] : List (K × V) → K → Option V
  | [], _ => none
  | p :: rest, k => if p.1 = k then some p.2 else hmGet rest k

/-- HashMap insertion: a later binding for an existing key overwrites it,
a fresh key is appended. -/
def hmInsert {K V : Type} [DecidableEq K] (m : List (K × V)) (k : K) (v : V) :
    List (K × V) :=
  if (hmGet m k).isSome then m.map (fun p => if p.1 = k then (k, v) else p)
  else m ++ [(k, v)]

/-- fn reversed_mapping (lines 27-34): HashMap::from_iter over the swapped
pairs of the input map; duplicate values collapse silently, later insertions
overwriting earlier ones. -/
def reversed_mapping (input : List (String × Int)) : List (Int × String) :=
  input.foldl (fun m p => hmInsert m p.2 p.1) []

/-- One meta-id lookup inside get_meta_ids:
config.phoneme_id_map.get(&c).unwrap().first().unwrap() panics when the
entry is missing or its id vector is empty. -/
def metaLookup (config : ModelConfig) (c : Char) : RResult Int :=
  match config.phoneme_id_map c with
  | none => .panicked
  | some ids =>
    match ids.head? with
    | none => .panicked
    | some i => .ok i

/-- fn get_meta_ids (lines 207-213): the (pad, bos, eos) id triple, looked up
with unwrap. -/
def get_meta_ids (config : ModelConfig) : RResult (Int × Int × Int) :=
  (metaLookup config PAD).bind fun pad_id =>
  (metaLookup config BOS).bind fun bos_id =>
  (metaLookup config EOS).bind fun eos_id =>
  .ok (pad_id, bos_id, eos_id)

/-- The loop body of phonemes_to_input_ids: for every character found in the
vocabulary push its first id then PAD; unknown characters are skipped; a
present entry with an empty id vector panics (first().unwrap()). -/
def idBody (config : ModelConfig) (pad_id : Int) : List Char → RResult (List Int)
  | [] => .ok []
  | c :: rest =>
    match config.phoneme_id_map c with
    | none => idBody config pad_id rest
    | some ids =>
      match ids.head? with
      | none => .panicked
      | some i => (idBody config pad_id rest).bind fun tail => .ok (i :: pad_id :: tail)

/-- fn phonemes_to_input_ids (lines 300-318): BOS, then the mapped body,
then EOS. -/
def phonemes_to_input_ids (config : ModelConfig) (phonemes : List Char)
    (pad_id bos_id eos_id : Int) : RResult (List Int) :=
  (idBody config pad_id phonemes).bind fun body => .ok (bos_id :: (body ++ [eos_id]))

/-- The first id a character maps to, when present and nonempty. -/
def vocabFirstId (config : ModelConfig) (c : Char) : Option Int :=
  (config.phoneme_id_map c).bind List.head?

/-- What claim C1 literally asserts the output shape to be: exactly one PAD
between every two consecutive mapped-or-boundary ids, including around BOS
and EOS. -/
def specClaimInputIds (config : ModelConfig) (phonemes : List Char)
    (pad_id bos_id eos_id : Int) : List Int :=
  bos_id :: pad_id ::
    ((phonemes.filterMap (vocabFirstId config)).flatMap (fun i => [i, pad_id]) ++ [eos_id])

/-- A concrete vocabulary: the three meta characters, the letter a, and
nothing else. -/
def vocabA : Char → Option (List Int) := fun c =>
  if c = '_' then some [0]
  else if c = '^' then some [1]
  else if c = '$' then some [2]
  else if c = 'a' then some [5]
  else none

/-- A concrete two-speaker voice configuration. -/
def cfgA : ModelConfig :=
  { num_speakers := 2
    speaker_id_map := [("amy", 0), ("bob", 1)]
    phoneme_id_map := vocabA
    espeak_voice := "en-us"
    sample_rate := 22050
    streaming := some false
    noise_scale := 667/1000
    length_scale := 1
    noise_w := 4/5 }

/-- A synthesis configuration with no speaker selected. -/
def synthA : SynthesisConfig :=
  { speaker := none, noise_scale := 667/1000, length_scale := 1, noise_w := 4/5 }

/-- When every vocabulary entry of the given characters is nonempty, the loop
body maps each known character to its first id followed by PAD and drops
unknown characters. -/
theorem idBody_ok (config : ModelConfig) (pad_id : Int) (ps : List Char)
    (hvocab : ∀ c ∈ ps, config.phoneme_id_map c ≠ some []) :
    idBody config pad_id ps =
      .ok ((ps.filterMap (vocabFirstId config)).flatMap (fun i => [i, pad_id])) := by
  induction ps with
  | nil => simp [idBody]
  | cons c rest ih =>
    have hrest : ∀ x ∈ rest, config.phoneme_id_map x ≠ some [] := by
      intro x hx
      exact hvocab x (List.mem_cons_of_mem c hx)
    rcases hc : config.phoneme_id_map c with _ | ids
    · simp only [idBody, hc, List.filterMap_cons, vocabFirstId, hc, Option.none_bind]
      exact ih hrest
    · cases ids with
      | nil => exact absurd hc (hvocab c (List.mem_cons_self c rest))
      | cons i tl =>
        simp only [idBody, hc, List.head?_cons, ih hrest, RResult.bind_ok,
          List.filterMap_cons, vocabFirstId, hc, Option.some_bind, List.head?_cons,
          List.flatMap_cons]
        rfl

/-- C1 (amended): for every vocabulary whose present entries are nonempty
id vectors, phonemes_to_input_ids starts with the BOS id and ends with the
EOS id; every character present in the vocabulary contributes its first id
followed by exactly one PAD (so exactly one PAD stands between consecutive
mapped ids and before EOS, but none between BOS and the first mapped id);
characters absent from the vocabulary contribute no id and no PAD. -/
theorem C1_phonemes_to_input_ids_shape (config : ModelConfig) (phonemes : List Char)
    (pad_id bos_id eos_id : Int)
    (hvocab : ∀ c ∈ phonemes, config.phoneme_id_map c ≠ some []) :
    phonemes_to_input_ids config phonemes pad_id bos_id eos_id =
      .ok (bos_id ::
        ((phonemes.filterMap (vocabFirstId config)).flatMap (fun i => [i, pad_id]) ++
          [eos_id])) := by
  rw [phonemes_to_input_ids, idBody_ok config pad_id phonemes hvocab, RResult.bind_ok]

/-- C1 counterexample: with the vocabulary of cfgA and the single known
character a, the code produces BOS, id, PAD, EOS with no PAD after BOS,
while the claim as stated demands one PAD between every two consecutive
mapped-or-boundary ids including around BOS. -/
theorem C1_counterexample :
    phonemes_to_input_ids cfgA ['a'] 0 1 2 = .ok [1, 5, 0, 2] ∧
    specClaimInputIds cfgA ['a'] 0 1 2 = [1, 0, 5, 0, 2] ∧
    phonemes_to_input_ids cfgA ['a'] 0 1 2 ≠ .ok (specClaimInputIds cfgA ['a'] 0 1 2) := by
  refine ⟨by decide, by decide, ?_⟩
  intro h
  rw [show specClaimInputIds cfgA ['a'] 0 1 2 = [1, 0, 5, 0, 2] from by decide,
    show phonemes_to_input_ids cfgA ['a'] 0 1 2 = .ok [1, 5, 0, 2] from by decide] at h
  cases h

/-- C1 witness: the amended theorem applied to cfgA with one known and one
unknown character. -/
theorem C1_witness :
    (∀ c ∈ ['a', 'z'], cfgA.phoneme_id_map c ≠ some []) ∧
    phonemes_to_input_ids cfgA ['a', 'z'] 0 1 2 =
      .ok (1 ::
        ((['a', 'z'].filterMap (vocabFirstId cfgA)).flatMap (fun i => [i, 0]) ++ [2])) :=
  ⟨by decide, C1_phonemes_to_input_ids_shape cfgA ['a', 'z'] 0 1 2 (by decide)⟩

/-- fn get_speaker (lines 245-260): error on a zero-speaker model; otherwise
the selected speaker, defaulting to the name of id 0 or the literal
Default. -/
def get_speaker (config : ModelConfig) (speaker_map : List (Int × String))
    (synth : SynthesisConfig) : RResult (Option String) :=
  if config.num_speakers = 0 then
    .err (.OperationError "This model is a single speaker model.")
  else
    match synth.speaker with
    | some speaker => .ok (some speaker.1)
    | none =>
      match hmGet speaker_map 0 with
      | some name => .ok (some name)
      | none => .ok (some "Default")

/-- fn set_speaker (lines 261-278): error on a zero-speaker model or an
unknown name; otherwise records the (name, id) pair.  Returns the updated
synthesis configuration. -/
def set_speaker (config : ModelConfig) (synth : SynthesisConfig) (name : String) :
    RResult SynthesisConfig :=
  if config.num_speakers = 0 then
    .err (.OperationError "This model is a single speaker model.")
  else
    match hmGet config.speaker_id_map name with
    | some sid => .ok { synth with speaker := some (name, sid) }
    | none => .err (.OperationError ("Invalid speaker name: `" ++ name ++ "`"))

/-- The named input tensors built for one inference call. -/
structure InferenceInputs where
  phoneme_inputs : List Int
  input_lengths : Int
  scales : List ℚ
  speaker_id : Option Int
deriving DecidableEq, Repr

/-- Tensor building shared by VitsModel::infer_with_values (lines 419-444)
and VitsStreamingModel::infer_encoder (lines 611-636): ids shaped (1, N),
the length, the three scales, and a speaker id tensor only when num_speakers
exceeds one (id 0 when no speaker is selected). -/
def build_inputs (config : ModelConfig) (synth : SynthesisConfig)
    (input_phonemes : List Int) : InferenceInputs :=
  { phoneme_inputs := input_phonemes
    input_lengths := input_phonemes.length
    scales := [synth.noise_scale, synth.length_scale, synth.noise_w]
    speaker_id :=
      if 1 < config.num_speakers then
        some (match synth.speaker with
          | some sp => sp.2
          | none => 0)
      else none }

/-- One backend output value: it either extracts to a float tensor or its
extraction fails with a message. -/
abbrev OrtValue := Except String (List F32)

/-- The abstract inference backend: named inputs to a run failure or the list
of output values. -/
abbrev Backend := InferenceInputs → Except String (List OrtValue)

/-- The wave samples produced by one synthesis call (timing omitted). -/
structure PiperWaveSamples where
  samples : List Int
  sample_rate : Nat
deriving DecidableEq, Repr

/-- VitsModel::infer_with_values (lines 419-487): build the inputs, run the
backend (failure is an OperationError), index outputs[0] (panics when there
is none), extract it (failure is an OperationError), render to PCM. -/
def infer_with_values (config : ModelConfig) (synth : SynthesisConfig)
    (backend : Backend) (input_phonemes : List Int) : RResult PiperWaveSamples :=
  match backend (build_inputs config synth input_phonemes) with
  | .error e => .err (.OperationError ("Failed to run model inference. Error: " ++ e))
  | .ok outputs =>
    match outputs.head? with
    | none => .panicked
    | some (Except.error e) =>
      .err (.OperationError ("Failed to run model inference. Error: " ++ e))
    | some (Except.ok audio_output) =>
      (audio_float_to_i16 audio_output).bind fun samples =>
        .ok ⟨samples, config.sample_rate⟩

/-- PiperModel::speak_one_sentence for VitsModel (lines 541-545). -/
def speak_one_sentence (config : ModelConfig) (synth : SynthesisConfig)
    (backend : Backend) (phonemes : List Char) : RResult PiperWaveSamples :=
  (get_meta_ids config).bind fun m =>
  (phonemes_to_input_ids config phonemes m.1 m.2.1 m.2.2).bind fun ids =>
  infer_with_values config synth backend ids

/-- The mapping phase of speak_batch (lines 529-533): all items are mapped
to input ids before any inference. -/
def mapBatch (config : ModelConfig) (pad_id bos_id eos_id : Int) :
    List (List Char) → RResult (List (List Int))
  | [] => .ok []
  | p :: rest =>
    (phonemes_to_input_ids config p pad_id bos_id eos_id).bind fun ids =>
    (mapBatch config pad_id bos_id eos_id rest).bind fun tail => .ok (ids :: tail)

/-- The inference loop of speak_batch (lines 534-538): sequential, pushing
each result, returning at the first error. -/
def inferLoop (config : ModelConfig) (synth : SynthesisConfig) (backend : Backend) :
    List (List Int) → RResult (List PiperWaveSamples)
  | [] => .ok []
  | ids :: rest =>
    (infer_with_values config synth backend ids).bind fun w =>
    (inferLoop config synth backend rest).bind fun tail => .ok (w :: tail)

/-- PiperModel::speak_batch for VitsModel (lines 527-539): look up the meta
ids once, map every item, then infer item by item. -/
def speak_batch (config : ModelConfig) (synth : SynthesisConfig) (backend : Backend)
    (phoneme_batches : List (List Char)) : RResult (List PiperWaveSamples) :=
  (get_meta_ids config).bind fun m =>
  (mapBatch config m.1 m.2.1 m.2.2 phoneme_batches).bind fun idss =>
  inferLoop config synth backend idss

/-- Modelled from the spec (the refinement reference for C8): batch synthesis
as sequential per-item application of the single-sentence synthesis steps,
results in input order. -/
def speakSequentially (config : ModelConfig) (synth : SynthesisConfig)
    (backend : Backend) : List (List Char) → RResult (List PiperWaveSamples)
  | [] => .ok []
  | p :: rest =>
    (speak_one_sentence config synth backend p).bind fun w =>
    (speakSequentially config synth backend rest).bind fun ws => .ok (w :: ws)

/-- The owned outputs of one encoder invocation. -/
structure EncoderOutputs where
  z : List F32
  y_mask : List F32
  g : List F32
deriving DecidableEq, Repr

/-- EncoderOutputs::new (lines 734-774): values[0] and values[1] are indexed
unconditionally (out of bounds panics), failed extraction of a present value
returns an OperationError, and g is extracted only when exactly 3 values came
back (empty otherwise). -/
def EncoderOutputs.new (values : List OrtValue) : RResult EncoderOutputs :=
  match values[0]? with
  | none => .panicked
  | some (Except.error e) =>
    .err (.OperationError ("Failed to run model inference. Error: " ++ e))
  | some (Except.ok z) =>
    match values[1]? with
    | none => .panicked
    | some (Except.error e) =>
      .err (.OperationError ("Failed to run model inference. Error: " ++ e))
    | some (Except.ok y_mask) =>
      if values.length = 3 then
        match values[2]? with
        | none => .panicked
        | some (Except.error e) =>
          .err (.OperationError ("Failed to run model inference. Error: " ++ e))
        | some (Except.ok g_t) => .ok ⟨z, y_mask, g_t⟩
      else .ok ⟨z, y_mask, []⟩

/-- VitsStreamingModel::infer_encoder (lines 611-659): build the same inputs
as the monolithic model, run the encoder, wrap the outputs. -/
def infer_encoder (config : ModelConfig) (synth : SynthesisConfig)
    (encoder : Backend) (input_phonemes : List Int) : RResult EncoderOutputs :=
  match encoder (build_inputs config synth input_phonemes) with
  | .error e => .err (.OperationError ("Failed to run model inference. Error: " ++ e))
  | .ok ort_values => EncoderOutputs.new ort_values

/-- The state a loaded VitsModel holds: descriptor, synthesis parameters,
reversed speaker map, and whether a diacritization engine was created. -/
structure VitsModelState where
  synth_config : SynthesisConfig
  config : ModelConfig
  speaker_map : List (Int × String)
  has_tashkeel : Bool

/-- VitsModel::from_config (lines 382-418): a session creation failure is an
OperationError; the speaker map is reversed_mapping of the descriptor table,
never validated; the tashkeel engine is created only for the Arabic voice. -/
def VitsModel.from_config (config : ModelConfig) (synth_config : SynthesisConfig)
    (session_result : Except String Unit) (tashkeel_result : Except String Unit) :
    RResult VitsModelState :=
  match session_result with
  | .error err =>
    .err (.OperationError
      ("Failed to initialize onnxruntime inference session: `" ++ err ++ "`"))
  | .ok _ =>
    if config.espeak_voice = "ar" then
      match tashkeel_result with
      | .ok _ => .ok ⟨synth_config, config, reversed_mapping config.speaker_id_map, true⟩
      | .error msg =>
        .err (.OperationError ("Failed to create inference engine for libtashkeel. " ++ msg))
    else .ok ⟨synth_config, config, reversed_mapping config.speaker_id_map, false⟩

theorem metaLookup_not_err (config : ModelConfig) (c : Char) :
    metaLookup config c = .panicked ∨ ∃ i, metaLookup config c = .ok i := by
  cases h : config.phoneme_id_map c with
  | none => exact Or.inl (by simp [metaLookup, h])
  | some ids =>
    cases ids with
    | nil => exact Or.inl (by simp [metaLookup, h])
    | cons i tl => exact Or.inr ⟨i, by simp [metaLookup, h]⟩

/-- C2 (amended): a voice whose vocabulary lacks the PAD, BOS, or EOS entry
fails fast at the first access to those ids, but by panicking (unwrap on the
missing entry) rather than by returning an error value: every synthesis call
ends in a panic before the backend is ever consulted. -/
theorem C2_missing_meta_panics (config : ModelConfig) (synth : SynthesisConfig)
    (backend : Backend) (phonemes : List Char) (batches : List (List Char))
    (h : config.phoneme_id_map PAD = none ∨ config.phoneme_id_map BOS = none ∨
      config.phoneme_id_map EOS = none) :
    get_meta_ids config = .panicked ∧
    speak_one_sentence config synth backend phonemes = .panicked ∧
    speak_batch config synth backend batches = .panicked := by
  have hmeta : get_meta_ids config = .panicked := by
    rcases h with h | h | h
    · rw [get_meta_ids, show metaLookup config PAD = .panicked by simp [metaLookup, h]]
      rfl
    · rcases metaLookup_not_err config PAD with hp | ⟨i, hp⟩
      · rw [get_meta_ids, hp]
        rfl
      · rw [get_meta_ids, hp, RResult.bind_ok,
          show metaLookup config BOS = .panicked by simp [metaLookup, h]]
        rfl
    · rcases metaLookup_not_err config PAD with hp | ⟨i, hp⟩
      · rw [get_meta_ids, hp]
        rfl
      · rcases metaLookup_not_err config BOS with hb | ⟨j, hb⟩
        · rw [get_meta_ids, hp, RResult.bind_ok, hb]
          rfl
        · rw [get_meta_ids, hp, RResult.bind_ok, hb, RResult.bind_ok,
            show metaLookup config EOS = .panicked by simp [metaLookup, h]]
          rfl
  refine ⟨hmeta, ?_, ?_⟩
  · rw [speak_one_sentence, hmeta]
    rfl
  · rw [speak_batch, hmeta]
    rfl

/-- A configuration whose vocabulary lacks the PAD entry. -/
def cfgNoPad : ModelConfig :=
  { cfgA with phoneme_id_map := fun c =>
      if c = '^' then some [1] else if c = '$' then some [2] else none }

/-- A backend that always fails; never reached in the C2 counterexample. -/
def backendFail : Backend := fun _ => Except.error "unused"

/-- C2 counterexample: on a voice whose vocabulary lacks PAD, synthesis
panics; it does not return an error value to the caller, refuting the claim
as stated (the panic is fatal, not a returned error). -/
theorem C2_counterexample :
    speak_one_sentence cfgNoPad synthA backendFail [] = .panicked ∧
    ¬ ∃ e, speak_one_sentence cfgNoPad synthA backendFail [] = .err e := by
  have h : speak_one_sentence cfgNoPad synthA backendFail [] = .panicked := by decide
  refine ⟨h, ?_⟩
  rintro ⟨e, he⟩
  rw [h] at he
  cases he

/-- C2 witness: the amended theorem applied to the PAD-less configuration. -/
theorem C2_witness :
    (cfgNoPad.phoneme_id_map PAD = none ∨ cfgNoPad.phoneme_id_map BOS = none ∨
      cfgNoPad.phoneme_id_map EOS = none) ∧
    speak_batch cfgNoPad synthA backendFail [['a']] = .panicked :=
  ⟨Or.inl (by decide),
   (C2_missing_meta_panics cfgNoPad synthA backendFail [] [['a']] (Or.inl (by decide))).2.2⟩

/-- C6: on a zero-speaker model both set_speaker and get_speaker fail with
an OperationError; on a model with at least one speaker, set_speaker of a
name in the speaker table succeeds and a following get_speaker returns that
name, while set_speaker of an absent name fails with an OperationError. -/
theorem C6_speaker_api (config : ModelConfig) (smap : List (Int × String))
    (synth : SynthesisConfig) (name : String) :
    (config.num_speakers = 0 →
      (∃ msg, set_speaker config synth name = .err (.OperationError msg)) ∧
      (∃ msg, get_speaker config smap synth = .err (.OperationError msg))) ∧
    (config.num_speakers ≠ 0 →
      (∀ sid, hmGet config.speaker_id_map name = some sid →
        set_speaker config synth name = .ok { synth with speaker := some (name, sid) } ∧
        ∀ smap2 : List (Int × String),
          get_speaker config smap2 { synth with speaker := some (name, sid) } =
            .ok (some name)) ∧
      (hmGet config.speaker_id_map name = none →
        ∃ msg, set_speaker config synth name = .err (.OperationError msg))) := by
  constructor
  · intro h0
    constructor
    · exact ⟨"This model is a single speaker model.", by simp [set_speaker, h0]⟩
    · exact ⟨"This model is a single speaker model.", by simp [get_speaker, h0]⟩
  · intro hne
    constructor
    · intro sid hsid
      constructor
      · simp [set_speaker, hne, hsid]
      · intro smap2
        simp [get_speaker, hne]
    · intro hnone
      exact ⟨"Invalid speaker name: `" ++ name ++ "`",
        by simp [set_speaker, hne, hnone]⟩

/-- A zero-speaker voice configuration. -/
def cfgZero : ModelConfig := { cfgA with num_speakers := 0, speaker_id_map := [] }

/-- C6 witness: the theorem applied to a zero-speaker voice and to the
two-speaker voice cfgA with the known name amy and the unknown name zoe. -/
theorem C6_witness :
    cfgZero.num_speakers = 0 ∧
    (∃ msg, set_speaker cfgZero synthA "amy" = .err (.OperationError msg)) ∧
    hmGet cfgA.speaker_id_map "amy" = some 0 ∧
    set_speaker cfgA synthA "amy" = .ok { synthA with speaker := some ("amy", 0) } ∧
    get_speaker cfgA [] { synthA with speaker := some ("amy", 0) } = .ok (some "amy") ∧
    (∃ msg, set_speaker cfgA synthA "zoe" = .err (.OperationError msg)) := by
  refine ⟨rfl, ((C6_speaker_api cfgZero [] synthA "amy").1 rfl).1, by decide, ?_, ?_, ?_⟩
  · exact (((C6_speaker_api cfgA [] synthA "amy").2 (by decide)).1 0 (by decide)).1
  · exact (((C6_speaker_api cfgA [] synthA "amy").2 (by decide)).1 0 (by decide)).2 []
  · exact ((C6_speaker_api cfgA [] synthA "zoe").2 (by decide)).2 (by decide)

/-- C9: the speaker-id input tensor is present if and only if the voice has
more than one speaker, with id 0 when no speaker was selected; on a voice
with exactly one speaker, set_speaker of a name in the table still succeeds
(only the zero-speaker case is rejected on speaker-count grounds), yet the
tensors built for inference do not depend on the selected speaker. -/
theorem C9_speaker_tensor (config : ModelConfig) (synth : SynthesisConfig)
    (ids : List Int) :
    ((build_inputs config synth ids).speaker_id ≠ none ↔ 1 < config.num_speakers) ∧
    (1 < config.num_speakers → synth.speaker = none →
      (build_inputs config synth ids).speaker_id = some 0) ∧
    (config.num_speakers = 1 → ∀ name sid, hmGet config.speaker_id_map name = some sid →
      set_speaker config synth name = .ok { synth with speaker := some (name, sid) }) ∧
    (config.num_speakers ≤ 1 → ∀ synth2 : SynthesisConfig,
      synth.noise_scale = synth2.noise_scale → synth.length_scale = synth2.length_scale →
      synth.noise_w = synth2.noise_w →
      build_inputs config synth ids = build_inputs config synth2 ids) := by
  refine ⟨?_, ?_, ?_, ?_⟩
  · rcases lt_or_le 1 config.num_speakers with h | h
    · simp [build_inputs, h]
    · simp [build_inputs, not_lt.mpr h, not_lt.mpr h]
  · intro h hnone
    simp [build_inputs, h, hnone]
  · intro h1 name sid hsid
    have hne : config.num_speakers ≠ 0 := by omega
    simp [set_speaker, hne, hsid]
  · intro hle synth2 e1 e2 e3
    have hnlt : ¬ 1 < config.num_speakers := by omega
    simp [build_inputs, hnlt, e1, e2, e3]

/-- A single-speaker voice configuration (num_speakers = 1). -/
def cfgOne : ModelConfig := { cfgA with num_speakers := 1, speaker_id_map := [("amy", 0)] }

/-- C9 witness: on the one-speaker voice, setting the known speaker succeeds
and the built inference inputs are unchanged by the selection. -/
theorem C9_witness :
    cfgOne.num_speakers = 1 ∧
    set_speaker cfgOne synthA "amy" = .ok { synthA with speaker := some ("amy", 0) } ∧
    build_inputs cfgOne { synthA with speaker := some ("amy", 0) } [1, 2] =
      build_inputs cfgOne synthA [1, 2] := by
  refine ⟨rfl, ?_, ?_⟩
  · exact (C9_speaker_tensor cfgOne synthA [1, 2]).2.2.1 rfl "amy" 0 (by decide)
  · exact (C9_speaker_tensor cfgOne { synthA with speaker := some ("amy", 0) } [1, 2]).2.2.2
      (by decide) synthA rfl rfl rfl

/-- C3 (amended): when the encoder backend returns fewer than 2 output
tensors, the encode step never produces a usable EncoderOutputs, but the
failure mode is a panic at the out-of-bounds tensor index rather than a
returned OperationError; the only exception is a single returned tensor
whose extraction itself fails, which surfaces that OperationError.  The
encode step defers to EncoderOutputs.new on the values the backend
returned. -/
theorem C3_encoder_lt2_outputs (values : List OrtValue) (h : values.length < 2) :
    (∀ eo, EncoderOutputs.new values ≠ .ok eo) ∧
    (values = [] → EncoderOutputs.new values = .panicked) ∧
    (∀ t, values = [Except.ok t] → EncoderOutputs.new values = .panicked) ∧
    (∀ e, values = [Except.error e] →
      EncoderOutputs.new values =
        .err (.OperationError ("Failed to run model inference. Error: " ++ e))) ∧
    (∀ (config : ModelConfig) (synth : SynthesisConfig) (enc : Backend) (ids : List Int),
      enc (build_inputs config synth ids) = Except.ok values →
      infer_encoder config synth enc ids = EncoderOutputs.new values) := by
  refine ⟨?_, ?_, ?_, ?_, ?_⟩
  · intro eo
    cases values with
    | nil => simp [EncoderOutputs.new]
    | cons v rest =>
      cases rest with
      | nil =>
        cases v with
        | ok t => simp [EncoderOutputs.new]
        | error e => simp [EncoderOutputs.new]
      | cons w rest2 =>
        exfalso
        simp only [List.length_cons] at h
        omega
  · intro hv
    subst hv
    rfl
  · intro t hv
    subst hv
    rfl
  · intro e hv
    subst hv
    rfl
  · intro config synth enc ids henc
    simp only [infer_encoder, henc]

/-- An encoder backend returning zero output tensors. -/
def encoderEmpty : Backend := fun _ => Except.ok []

/-- C3 counterexample: an encoder run that returns no output tensors makes
the encode step panic on the out-of-bounds index; no OperationError value is
returned to the caller, refuting the claim as stated. -/
theorem C3_counterexample :
    infer_encoder cfgA synthA encoderEmpty [1, 2] = .panicked ∧
    ¬ ∃ e, infer_encoder cfgA synthA encoderEmpty [1, 2] = .err e := by
  have h : infer_encoder cfgA synthA encoderEmpty [1, 2] = .panicked := rfl
  refine ⟨h, ?_⟩
  rintro ⟨e, he⟩
  rw [h] at he
  cases he

/-- C3 witness: the amended theorem applied to the empty output list. -/
theorem C3_witness :
    ([] : List OrtValue).length < 2 ∧
    EncoderOutputs.new ([] : List OrtValue) = .panicked :=
  ⟨by decide, (C3_encoder_lt2_outputs [] (by decide)).2.1 rfl⟩

theorem hmGet_eq_none_of_fresh {K V : Type} [DecidableEq K]
    (m : List (K × V)) (k : K) (hfresh : ∀ p ∈ m, p.1 ≠ k) : hmGet m k = none := by
  induction m with
  | nil => rfl
  | cons p rest ih =>
    rw [hmGet, if_neg (hfresh p (List.mem_cons_self p rest))]
    exact ih (fun q hq => hfresh q (List.mem_cons_of_mem p hq))

theorem hmInsert_of_fresh {K V : Type} [DecidableEq K]
    (m : List (K × V)) (k : K) (v : V) (hfresh : ∀ p ∈ m, p.1 ≠ k) :
    hmInsert m k v = m ++ [(k, v)] := by
  rw [hmInsert, hmGet_eq_none_of_fresh m k hfresh]
  rfl

theorem foldl_hmInsert_fresh :
    ∀ (l : List (String × Int)) (acc : List (Int × String)),
      (l.map Prod.snd).Nodup → (∀ p ∈ l, ∀ q ∈ acc, q.1 ≠ p.2) →
      l.foldl (fun m p => hmInsert m p.2 p.1) acc = acc ++ l.map (fun p => (p.2, p.1)) := by
  intro l
  induction l with
  | nil => intro acc _ _; simp
  | cons p rest ih =>
    intro acc hnodup hfresh
    have hstep : hmInsert acc p.2 p.1 = acc ++ [(p.2, p.1)] :=
      hmInsert_of_fresh acc p.2 p.1 (fun q hq => hfresh p (List.mem_cons_self p rest) q hq)
    have hnodup2 : (rest.map Prod.snd).Nodup := by
      rw [List.map_cons] at hnodup
      exact hnodup.of_cons
    have hhead : p.2 ∉ rest.map Prod.snd := by
      rw [List.map_cons] at hnodup
      exact (List.nodup_cons.mp hnodup).1
    have hfresh2 : ∀ r ∈ rest, ∀ q ∈ acc ++ [(p.2, p.1)], q.1 ≠ r.2 := by
      intro r hr q hq
      rcases List.mem_append.mp hq with hq | hq
      · exact hfresh r (List.mem_cons_of_mem p hr) q hq
      · have hq2 : q = (p.2, p.1) := by simpa using hq
        subst hq2
        intro hcontra
        apply hhead
        have hc2 : p.2 = r.2 := hcontra
        rw [hc2]
        exact List.mem_map_of_mem Prod.snd hr
    calc (p :: rest).foldl (fun m p => hmInsert m p.2 p.1) acc
        = rest.foldl (fun m p => hmInsert m p.2 p.1) (hmInsert acc p.2 p.1) := rfl
      _ = rest.foldl (fun m p => hmInsert m p.2 p.1) (acc ++ [(p.2, p.1)]) := by rw [hstep]
      _ = (acc ++ [(p.2, p.1)]) ++ rest.map (fun p => (p.2, p.1)) := ih _ hnodup2 hfresh2
      _ = acc ++ (p :: rest).map (fun p => (p.2, p.1)) := by simp

theorem reversed_mapping_eq_swap (input : List (String × Int))
    (hids : (input.map Prod.snd).Nodup) :
    reversed_mapping input = input.map (fun p => (p.2, p.1)) := by
  rw [reversed_mapping, foldl_hmInsert_fresh input [] hids (by intro p _ q hq; simp at hq)]
  rfl

theorem hmGet_eq_some_iff_mem {K V : Type} [DecidableEq K] :
    ∀ (l : List (K × V)), (l.map Prod.fst).Nodup →
      ∀ (k : K) (v : V), (hmGet l k = some v ↔ (k, v) ∈ l) := by
  intro l
  induction l with
  | nil => intro _ k v; simp [hmGet]
  | cons p rest ih =>
    intro hnodup k v
    have hnodup2 : (rest.map Prod.fst).Nodup := by
      rw [List.map_cons] at hnodup
      exact hnodup.of_cons
    have hhead : p.1 ∉ rest.map Prod.fst := by
      rw [List.map_cons] at hnodup
      exact (List.nodup_cons.mp hnodup).1
    rcases eq_or_ne p.1 k with hk | hk
    · rw [hmGet, if_pos hk]
      constructor
      · intro hv
        have hv2 : v = p.2 := by injection hv with hv3; exact hv3.symm
        subst hv2
        rw [← hk]
        simp
      · intro hmem
        rcases List.mem_cons.mp hmem with heq | hmem2
        · rw [← heq]
        · exfalso
          apply hhead
          rw [hk]
          simpa using List.mem_map_of_mem Prod.fst hmem2
    · rw [hmGet, if_neg hk]
      rw [ih hnodup2 k v]
      constructor
      · exact List.mem_cons_of_mem p
      · intro hmem
        rcases List.mem_cons.mp hmem with heq | hmem2
        · exfalso
          apply hk
          rw [← heq]
        · exact hmem2

theorem mem_swap_iff (l : List (String × Int)) (id : Int) (name : String) :
    (id, name) ∈ l.map (fun p => (p.2, p.1)) ↔ (name, id) ∈ l := by
  constructor
  · intro h
    rcases List.mem_map.mp h with ⟨a, ha, heq⟩
    rw [Prod.ext_iff] at heq
    have ha2 : a = (name, id) := by
      rw [Prod.ext_iff]
      exact ⟨heq.2, heq.1⟩
    rw [← ha2]
    exact ha
  · intro h
    exact List.mem_map.mpr ⟨(name, id), h, rfl⟩

/-- C7 (amended): when the descriptor speaker table has pairwise distinct
names and pairwise distinct ids, the id-to-name map built at load time is
exactly the inverse of the name-to-id table (a bijection between the listed
names and ids); however, duplicate ids are collapsed silently by the
insertion (no load-time error arises from the speaker table): loading
succeeds whenever the session (and, for the Arabic voice, the tashkeel
engine) can be created. -/
theorem C7_reversed_mapping_inverse (input : List (String × Int))
    (config : ModelConfig) (synth : SynthesisConfig) (t : Except String Unit)
    (hnames : (input.map Prod.fst).Nodup) (hids : (input.map Prod.snd).Nodup)
    (hvoice : config.espeak_voice ≠ "ar") :
    (∀ name id, hmGet input name = some id ↔
      hmGet (reversed_mapping input) id = some name) ∧
    (VitsModel.from_config config synth (Except.ok ()) t =
      .ok ⟨synth, config, reversed_mapping config.speaker_id_map, false⟩) := by
  constructor
  · intro name id
    rw [reversed_mapping_eq_swap input hids]
    have hkeys : ((input.map (fun p => (p.2, p.1))).map Prod.fst).Nodup := by
      rw [List.map_map]
      exact hids
    rw [hmGet_eq_some_iff_mem input hnames name id,
      hmGet_eq_some_iff_mem (input.map (fun p => (p.2, p.1))) hkeys id name,
      mem_swap_iff]
  · simp [VitsModel.from_config, hvoice]

/-- A voice whose speaker table maps two names to the same id. -/
def cfgDup : ModelConfig := { cfgA with speaker_id_map := [("a", 0), ("b", 0)] }

/-- C7 counterexample: with duplicate ids in the speaker table, the reversed
map silently keeps only one entry, so it is not the inverse of the table and
no bijection exists, and loading still succeeds: no load-time error is
raised, refuting the claim as stated. -/
theorem C7_counterexample :
    hmGet cfgDup.speaker_id_map "a" = some 0 ∧
    hmGet cfgDup.speaker_id_map "b" = some 0 ∧
    reversed_mapping cfgDup.speaker_id_map = [(0, "b")] ∧
    hmGet (reversed_mapping cfgDup.speaker_id_map) 0 ≠ some "a" ∧
    VitsModel.from_config cfgDup synthA (Except.ok ()) (Except.ok ()) =
      .ok ⟨synthA, cfgDup, [(0, "b")], false⟩ := by
  refine ⟨by decide, by decide, by decide, by decide, rfl⟩

/-- C7 witness: the amended theorem applied to the duplicate-free table of
cfgA. -/
theorem C7_witness :
    (hmGet [("amy", (0 : Int)), ("bob", 1)] "bob" = some 1 ↔
      hmGet (reversed_mapping [("amy", 0), ("bob", 1)]) 1 = some "bob") ∧
    VitsModel.from_config cfgA synthA (Except.ok ()) (Except.ok ()) =
      .ok ⟨synthA, cfgA, reversed_mapping cfgA.speaker_id_map, false⟩ := by
  have h := C7_reversed_mapping_inverse [("amy", 0), ("bob", 1)] cfgA synthA (Except.ok ())
    (by decide) (by decide) (by decide)
  exact ⟨h.1 "bob" 1, h.2⟩

theorem phonemes_to_input_ids_ok_exists (config : ModelConfig) (p : List Char)
    (pad_id bos_id eos_id : Int)
    (hvocab : ∀ c, config.phoneme_id_map c ≠ some []) :
    ∃ ids, phonemes_to_input_ids config p pad_id bos_id eos_id = .ok ids :=
  ⟨_, by rw [phonemes_to_input_ids, idBody_ok config pad_id p (fun c _ => hvocab c),
    RResult.bind_ok]⟩

theorem mapBatch_ok_exists (config : ModelConfig) (pad_id bos_id eos_id : Int)
    (batches : List (List Char))
    (hvocab : ∀ c, config.phoneme_id_map c ≠ some []) :
    ∃ l, mapBatch config pad_id bos_id eos_id batches = .ok l := by
  induction batches with
  | nil => exact ⟨[], rfl⟩
  | cons p rest ih =>
    obtain ⟨ids, hids⟩ := phonemes_to_input_ids_ok_exists config p pad_id bos_id eos_id hvocab
    obtain ⟨tl, htl⟩ := ih
    exact ⟨ids :: tl, by simp only [mapBatch, hids, htl, RResult.bind_ok]⟩

/-- C8: on a voice whose meta ids resolve and whose vocabulary entries are
nonempty, speak_batch is exactly the sequential per-item application of the
single-sentence synthesis steps, in input order; no cross-item batching
occurs (every inference call receives the ids of a single item only, as both sides
build their tensors per item). -/
theorem C8_speak_batch_eq_sequential (config : ModelConfig) (synth : SynthesisConfig)
    (backend : Backend) (batches : List (List Char)) (m : Int × Int × Int)
    (hmeta : get_meta_ids config = .ok m)
    (hvocab : ∀ c, config.phoneme_id_map c ≠ some []) :
    speak_batch config synth backend batches =
      speakSequentially config synth backend batches := by
  induction batches with
  | nil =>
    rw [speak_batch, hmeta, RResult.bind_ok]
    rfl
  | cons p rest ih =>
    obtain ⟨ids, hids⟩ := phonemes_to_input_ids_ok_exists config p m.1 m.2.1 m.2.2 hvocab
    obtain ⟨tl, htl⟩ := mapBatch_ok_exists config m.1 m.2.1 m.2.2 rest hvocab
    have hbatch_rest : speak_batch config synth backend rest =
        inferLoop config synth backend tl := by
      rw [speak_batch, hmeta, RResult.bind_ok, htl, RResult.bind_ok]
    have hseq : speakSequentially config synth backend rest =
        inferLoop config synth backend tl := by
      rw [← ih, hbatch_rest]
    simp only [speak_batch, speakSequentially, speak_one_sentence, mapBatch, inferLoop,
      hmeta, hids, htl, hseq, RResult.bind_ok]

/-- Every entry of the cfgA vocabulary is a nonempty id vector. -/
theorem cfgA_vocab_nonempty : ∀ c, cfgA.phoneme_id_map c ≠ some [] := by
  intro c
  show vocabA c ≠ some []
  simp only [vocabA]
  repeat' split
  all_goals simp

/-- A backend that succeeds on the ids of the empty phoneme string under
cfgA and fails on everything else. -/
def bkFirstOnly : Backend := fun inp =>
  if inp.phoneme_inputs = [1, 2] then Except.ok [Except.ok [F32.val 1]]
  else Except.error "boom"

/-- C8 witness: batch and sequential synthesis agree on a concrete batch. -/
theorem C8_witness :
    speak_batch cfgA synthA bkFirstOnly [['a'], []] =
      speakSequentially cfgA synthA bkFirstOnly [['a'], []] :=
  C8_speak_batch_eq_sequential cfgA synthA bkFirstOnly [['a'], []] (0, 1, 2)
    (by decide) cfgA_vocab_nonempty

theorem inferLoop_first_error (config : ModelConfig) (synth : SynthesisConfig)
    (backend backend2 : Backend) (pre post : List (List Int)) (idsk : List Int)
    (e : PiperError)
    (hpre : ∀ ids ∈ pre, ∃ w, infer_with_values config synth backend ids = .ok w)
    (hfail : infer_with_values config synth backend idsk = .err e)
    (hagree : ∀ ids ∈ pre ++ [idsk],
      infer_with_values config synth backend2 ids =
        infer_with_values config synth backend ids) :
    inferLoop config synth backend2 (pre ++ idsk :: post) = .err e := by
  induction pre with
  | nil =>
    have h2 : infer_with_values config synth backend2 idsk = .err e := by
      rw [hagree idsk (by simp), hfail]
    simp only [List.nil_append, inferLoop, h2, RResult.bind_err]
  | cons q pre2 ih =>
    obtain ⟨w, hw⟩ := hpre q (List.mem_cons_self q pre2)
    have hq2 : infer_with_values config synth backend2 q = .ok w := by
      rw [hagree q (List.mem_cons_self q (pre2 ++ [idsk])), hw]
    have ih2 := ih (fun ids h => hpre ids (List.mem_cons_of_mem q h))
      (fun ids h => hagree ids (List.mem_cons_of_mem q h))
    simp only [List.cons_append, inferLoop, hq2, RResult.bind_ok, List.append_eq, ih2,
      RResult.bind_err]

/-- C10: when the inference of one batch item fails and every earlier item
succeeds, the whole speak_batch call returns exactly that error: no wave
samples are returned for any item (the earlier results are discarded with
the returned error), and the items after the failing one are never
synthesized: the result is the same for every backend that agrees with the
original on the items up to and including the failing one. -/
theorem C10_speak_batch_first_error (config : ModelConfig) (synth : SynthesisConfig)
    (backend backend2 : Backend) (batches : List (List Char)) (m : Int × Int × Int)
    (pre post : List (List Int)) (idsk : List Int) (e : PiperError)
    (hmeta : get_meta_ids config = .ok m)
    (hmap : mapBatch config m.1 m.2.1 m.2.2 batches = .ok (pre ++ idsk :: post))
    (hpre : ∀ ids ∈ pre, ∃ w, infer_with_values config synth backend ids = .ok w)
    (hfail : infer_with_values config synth backend idsk = .err e)
    (hagree : ∀ ids ∈ pre ++ [idsk],
      infer_with_values config synth backend2 ids =
        infer_with_values config synth backend ids) :
    speak_batch config synth backend2 batches = .err e := by
  rw [speak_batch, hmeta, RResult.bind_ok, hmap, RResult.bind_ok]
  exact inferLoop_first_error config synth backend backend2 pre post idsk e hpre hfail hagree

/-- C10 witness: on the batch of the empty string followed by the letter a,
with a backend that fails on the second item, speak_batch returns exactly
that error. -/
theorem C10_witness :
    speak_batch cfgA synthA bkFirstOnly [[], ['a']] =
      .err (.OperationError ("Failed to run model inference. Error: " ++ "boom")) := by
  have haudio : audio_float_to_i16 [F32.val 1] = .ok [32767] := by
    rw [audio_float_to_i16_eq_map_scaled [F32.val 1] 1 1 32767
      (by norm_num [f32Min, f32MinGo]) (by norm_num [f32Max, f32MaxGo])
      (by norm_num [MAX_WAV_VALUE, qmax, qabs])]
    norm_num [f32toQ, rustClamp, qmax, qmin, ratTrunc]
  have hb1 : bkFirstOnly (build_inputs cfgA synthA [1, 2]) =
      Except.ok [Except.ok [F32.val 1]] := rfl
  have hinfer1 : infer_with_values cfgA synthA bkFirstOnly [1, 2] =
      .ok ⟨[32767], 22050⟩ := by
    simp only [infer_with_values, hb1, List.head?_cons, haudio, RResult.bind_ok]
    rfl
  have hb2 : bkFirstOnly (build_inputs cfgA synthA [1, 5, 0, 2]) = Except.error "boom" := rfl
  have hinfer2 : infer_with_values cfgA synthA bkFirstOnly [1, 5, 0, 2] =
      .err (.OperationError ("Failed to run model inference. Error: " ++ "boom")) := by
    simp only [infer_with_values, hb2]
  exact C10_speak_batch_first_error cfgA synthA bkFirstOnly bkFirstOnly [[], ['a']]
    (0, 1, 2) [[1, 2]] [] [1, 5, 0, 2]
    (.OperationError ("Failed to run model inference. Error: " ++ "boom"))
    (by decide) (by decide)
    (by
      intro ids h
      have h2 : ids = [1, 2] := by simpa using h
      rw [h2]
      exact ⟨⟨[32767], 22050⟩, hinfer1⟩)
    hinfer2
    (fun ids _ => rfl)
